import Mathlib

/-!
Verification development for the random-number subsystem of the
arduinolibs repository: the entropy pool (RNGClass), its whitening core
(ChaCha hashCore with 20 rounds, per crypto-rng.dox), the Von Neumann
debiasing extractor of the ring-oscillator noise source
(crypto-rng-ring.dox), the ESP hardware noise source
(libraries/TransistorNoiseSource/TransistorNoiseSource.h), and the
autosave housekeeping scheduler.

The C++ implementation files RNG.cpp, ChaCha.cpp and
RingOscillatorNoiseSource.cpp are not part of the source tree; only
their documentation pages (crypto-rng.dox, crypto-rng-ring.dox) and the
ESPNoiseSource implementation are.  Definitions for the missing parts
are therefore modelled from the specification and the documentation
pages, and are marked as such in their doc comments.
-/

/-- Word modulus of the 32-bit arithmetic used by the whitening core. -/
def M32 : ℕ := 4294967296

/-- Addition modulo 2^32. -/
def add32 (a b : ℕ) : ℕ := (a + b) % M32

/-- Left rotation of a 32-bit word by `n` positions (0 < n < 32). -/
def rotl32 (x n : ℕ) : ℕ := ((x % M32) * 2 ^ n + (x % M32) / 2 ^ (32 - n)) % M32

/-- Modelled from the spec: ChaCha.cpp is not under src/.  The ChaCha
quarter round on the state words at positions `ia ib ic idd`, as used by
the 20-round `ChaCha::hashCore()` that crypto-rng.dox names as the
whitening function of the pool. -/
def qround (s : List ℕ) (ia ib ic idd : ℕ) : List ℕ :=
  let a := s.getD ia 0
  let b := s.getD ib 0
  let c := s.getD ic 0
  let d := s.getD idd 0
  let a1 := add32 a b
  let d1 := rotl32 (Nat.xor d a1) 16
  let c1 := add32 c d1
  let b1 := rotl32 (Nat.xor b c1) 12
  let a2 := add32 a1 b1
  let d2 := rotl32 (Nat.xor d1 a2) 8
  let c2 := add32 c1 d2
  let b2 := rotl32 (Nat.xor b1 c2) 7
  (((s.set ia a2).set ib b2).set ic c2).set idd d2

/-- Column round of ChaCha on a 16-word state. -/
def colRound (s : List ℕ) : List ℕ :=
  qround (qround (qround (qround s 0 4 8 12) 1 5 9 13) 2 6 10 14) 3 7 11 15

/-- Diagonal round of ChaCha on a 16-word state. -/
def diagRound (s : List ℕ) : List ℕ :=
  qround (qround (qround (qround s 0 5 10 15) 1 6 11 12) 2 7 8 13) 3 4 9 14

/-- `n` double rounds (column then diagonal) of ChaCha. -/
def chachaRounds : ℕ → List ℕ → List ℕ
  | 0, s => s
  | n + 1, s => chachaRounds n (diagRound (colRound s))

/-- Modelled from the spec: ChaCha.cpp is not under src/.  The 20-round
ChaCha hash core (10 double rounds followed by the feed-forward addition
of the input), the keyed pseudorandom permutation that crypto-rng.dox
states is used for both whitening (compress) and output (stretch). -/
def chachaCore (s : List ℕ) : List ℕ :=
  List.zipWith add32 (chachaRounds 10 s) s

/-- Little-endian 32-bit word assembled from bytes `i, i+1, i+2, i+3` of a
byte list (missing bytes read as zero padding). -/
def word4 (b : List ℕ) (i : ℕ) : ℕ :=
  b.getD i 0 + 256 * b.getD (i + 1) 0 + 65536 * b.getD (i + 2) 0 +
    16777216 * b.getD (i + 3) 0

/-- A 48-byte chunk viewed as 12 little-endian 32-bit words. -/
def toWords12 (b : List ℕ) : List ℕ :=
  [word4 b 0, word4 b 4, word4 b 8, word4 b 12, word4 b 16, word4 b 20,
   word4 b 24, word4 b 28, word4 b 32, word4 b 36, word4 b 40, word4 b 44]

/-- Little-endian bytes of one 32-bit word. -/
def wordBytes (w : ℕ) : List ℕ :=
  [w % 256, w / 256 % 256, w / 65536 % 256, w / 16777216 % 256]

/-- Little-endian byte serialization of a word list. -/
def wordsToBytes : List ℕ → List ℕ
  | [] => []
  | w :: rest => wordBytes w ++ wordsToBytes rest

/-- Normalize a pool word list to exactly 12 words (zero padding).  On
well-formed pool states (12 words = 48 bytes) this is the identity. -/
def poolNorm (p : List ℕ) : List ℕ := (p ++ List.replicate 12 0).take 12

/-- Modelled from the spec: RNG.cpp (RNGClass) is not under src/; only
its documentation page crypto-rng.dox is.  The pool state of the
entropy accumulator: a 48-byte (12-word) mixing state, the block counter
used by the whitening core for domain separation, and the entropy credit
counter `credit` in bits, bounded by the 384-bit pool capacity. -/
structure RNGState where
  pool : List ℕ
  counter : ℕ
  credit : ℕ

/-- Constant words heading the whitening-core input block; the block
counter is folded into the fourth word for domain separation. -/
def ctrWords (c : ℕ) : List ℕ :=
  [1634760805, 857760878, 2036477234, (1797285236 + c) % M32]

/-- Modelled from the spec: RNG.cpp is not under src/.  One stretch
invocation of the whitening core: current state plus block counter
produce a 16-word output block; the tail (words 4..15) immediately
becomes the new pool key material (the ratchet) and the block counter
advances. -/
def stretch (st : RNGState) : List ℕ × RNGState :=
  let out := chachaCore (ctrWords st.counter ++ poolNorm st.pool)
  (out, { pool := out.drop 4, counter := st.counter + 1, credit := st.credit })

/-- One output-generation step of `rand`: the head (first 4 words = 16
bytes) of a stretch block is disclosed to the caller; the tail is
retained as the ratcheted key. -/
def randStep (st : RNGState) : List ℕ × RNGState :=
  let p := stretch st
  (wordsToBytes (p.1.take 4), p.2)

/-- Concatenation of `n` successive disclosed output blocks. -/
def randBlocks : RNGState → ℕ → List ℕ × RNGState
  | st, 0 => ([], st)
  | st, n + 1 =>
    let p := randStep st
    let q := randBlocks p.2 n
    (p.1 ++ q.1, q.2)

/-- Modelled from the spec: RNG.cpp is not under src/.
`rand(buffer, len)` always fills exactly `len` bytes, regardless of the
current entropy credit: as many stretch blocks as needed are generated,
and only the needed prefix of the final block is copied out.  The
function is total and returns no error value. -/
def rand (st : RNGState) (len : ℕ) : List ℕ × RNGState :=
  let p := randBlocks st ((len + 15) / 16)
  (p.1.take len, p.2)

/-- Modelled from the spec: RNG.cpp is not under src/.  Folding one
48-byte chunk of caller data into the pool through the whitening core
(full permutation of the XOR of pool and data, not an additive XOR). -/
def compress (pool : List ℕ) (chunkBytes : List ℕ) : List ℕ :=
  (chachaCore (ctrWords 0 ++
    List.zipWith Nat.xor (poolNorm pool) (toWords12 chunkBytes))).drop 4

/-- Fuel-driven worker for `chunks48`; the fuel is the list length, and
each step consumes 48 bytes, so the fuel never runs out first. -/
def chunksGo : ℕ → List ℕ → List (List ℕ)
  | 0, _ => []
  | fuel + 1, l => if l = [] then [] else l.take 48 :: chunksGo fuel (l.drop 48)

/-- Split a byte list into 48-byte chunks (the last chunk zero padded by
the consumers of this function). -/
def chunks48 (l : List ℕ) : List (List ℕ) :=
  chunksGo l.length l

/-- Compress arbitrary-length caller data into the pool, chunk by chunk. -/
def stirPool (pool : List ℕ) (data : List ℕ) : List ℕ :=
  (chunks48 data).foldl compress pool

/-- Modelled from the spec: RNG.cpp is not under src/.
`stir(data, credit_bits)` unconditionally compresses `data` into the
pool via the whitening core, then increases the credit counter by
exactly `min credit_bits (384 - credit)` (crypto-rng.dox: the pool holds
at most 48 bytes = 384 bits of entropy). -/
def stirFn (st : RNGState) (data : List ℕ) (creditBits : ℕ) : RNGState :=
  { pool := stirPool st.pool data
    counter := st.counter
    credit := st.credit + min creditBits (384 - st.credit) }

/-- A sequence of `stir` calls, each supplying data and a credit claim. -/
def runStir : RNGState → List (List ℕ × ℕ) → RNGState
  | st, [] => st
  | st, (d, c) :: rest => runStir (stirFn st d c) rest

/-- Modelled from the spec: RNG.cpp is not under src/.
`available(n)` is true iff the credit counter holds at least `n * 8`
bits or the pool is saturated at its 384-bit capacity (the saturation
escape valve of crypto-rng.dox lines 258-263). -/
def available (st : RNGState) (n : ℕ) : Bool :=
  decide (n * 8 ≤ st.credit) || decide (st.credit = 384)

/-- Modelled from the spec: RNG.cpp is not under src/.  `save` derives
48 bytes of fresh pseudorandom seed-record content from a stretch block
and ratchets the state. -/
def save (st : RNGState) : List ℕ × RNGState :=
  let p := stretch st
  (wordsToBytes (p.1.take 12), p.2)

/-- Modelled from the spec: RNG.cpp is not under src/.  `begin(tag)`
with no saved seed: start from the all-zero pool, stir in the
application tag with zero credit, then immediately save a fresh seed
record.  Returns the written seed-record content and the state. -/
def beginTag (tag : List ℕ) : List ℕ × RNGState :=
  save (stirFn ⟨List.replicate 12 0, 0, 0⟩ tag 0)

/-- The first 16 disclosed output bytes produced by a pool initialized
with `begin(tag)` and fed zero noise. -/
def firstOutput (tag : List ℕ) : List ℕ :=
  (randStep (beginTag tag).2).1

/-- Modelled from the spec: RingOscillatorNoiseSource.cpp is not under
src/; only its documentation page crypto-rng-ring.dox is (lines
158-169).  The Von Neumann debiasing extractor: consume input bits
pairwise; an equal pair is discarded entirely; of an unequal pair the
first bit is emitted and the other discarded. -/
def vonNeumann : List Bool → List Bool
  | [] => []
  | [_] => []
  | a :: b :: rest => if a == b then vonNeumann rest else a :: vonNeumann rest

/-- The eight bits of a byte, least significant first. -/
def byteBits (b : ℕ) : List Bool :=
  [b.testBit 0, b.testBit 1, b.testBit 2, b.testBit 3,
   b.testBit 4, b.testBit 5, b.testBit 6, b.testBit 7]

/-- The bitstream of a byte list. -/
def bytesToBits : List ℕ → List Bool
  | [] => []
  | b :: rest => byteBits b ++ bytesToBits rest

/-- `ESPNoiseSource::stir()` from
libraries/TransistorNoiseSource/TransistorNoiseSource.h lines 172-181:
if neither the Wi-Fi/Bluetooth radio (the PHY module mask) nor the
digital ADC is enabled it returns immediately, delivering nothing and
claiming no credit; otherwise it delivers the 32 raw bytes read from
the hardware RNG (`esp_fill_random` into `uint8_t buffer[32]`) to
`output(buffer, sizeof(buffer), sizeof(buffer) * 2)`, i.e. with a
credit claim of exactly 64 bits.  `raw` stands for the 32 bytes the
hardware returns. -/
def espStir (radioEnabled adcEnabled : Bool) (raw : List ℕ) :
    Option (List ℕ × ℕ) :=
  if radioEnabled = false ∧ adcEnabled = false then none
  else some (raw, 64)

/-- A save performed by the housekeeping scheduler, recording its tick,
whether it was due to the autosave schedule, and whether it was the
one-time forced save on first pool saturation (when the saturation
moment coincides with a scheduled save, the single save is recorded as
scheduled and not additionally as forced). -/
structure SaveEvent where
  tick : ℕ
  sched : Bool
  forcedSave : Bool

/-- Modelled from the spec: RNG.cpp is not under src/; crypto-rng.dox
lines 173-177 describe the autosave behaviour.  The housekeeping
scheduler processed over discrete ticks `t, t+1, ...` for `n` ticks:
a scheduled save fires at every multiple of the interval `T`; the
forced save fires once, at the first tick where the credit trajectory
`cred` reaches the 384-bit capacity (tracked by the flag `fd`), and is
absorbed into a scheduled save when the two coincide. -/
def schedGo (T : ℕ) (cred : ℕ → ℕ) : ℕ → ℕ → Bool → List SaveEvent
  | _, 0, _ => []
  | t, n + 1, fd =>
    let sch := t % T == 0
    let sat := (cred t == 384) && !fd
    let rest := schedGo T cred (t + 1) n (fd || (cred t == 384))
    if sch || sat then ⟨t, sch, sat && !sch⟩ :: rest else rest

/-- The housekeeping scheduler run from tick 1 for `n` ticks with
interval `T` and credit trajectory `cred`. -/
def runScheduler (T : ℕ) (cred : ℕ → ℕ) (n : ℕ) : List SaveEvent :=
  schedGo T cred 1 n false

/-- The list of `n` consecutive ticks starting at `s`. -/
def ticks : ℕ → ℕ → List ℕ
  | _, 0 => []
  | s, n + 1 => s :: ticks (s + 1) n

set_option maxRecDepth 6000

lemma length_qround (s : List ℕ) (ia ib ic idd : ℕ) :
    (qround s ia ib ic idd).length = s.length := by
  simp [qround]

lemma length_colRound (s : List ℕ) : (colRound s).length = s.length := by
  simp [colRound, length_qround]

lemma length_diagRound (s : List ℕ) : (diagRound s).length = s.length := by
  simp [diagRound, length_qround]

lemma length_chachaRounds (n : ℕ) :
    ∀ s : List ℕ, (chachaRounds n s).length = s.length := by
  induction n with
  | zero => intro s; rfl
  | succ n ih =>
    intro s
    simp [chachaRounds, ih, length_diagRound, length_colRound]

lemma length_chachaCore (s : List ℕ) : (chachaCore s).length = s.length := by
  simp [chachaCore, length_chachaRounds]

lemma length_poolNorm (p : List ℕ) : (poolNorm p).length = 12 := by
  simp [poolNorm]

lemma length_stretch_input (c : ℕ) (p : List ℕ) :
    (ctrWords c ++ poolNorm p).length = 16 := by
  simp [ctrWords, length_poolNorm]

lemma length_wordsToBytes : ∀ l : List ℕ, (wordsToBytes l).length = 4 * l.length := by
  intro l
  induction l with
  | nil => rfl
  | cons w rest ih => simp [wordsToBytes, wordBytes, ih]; omega

lemma mem_wordsToBytes_lt : ∀ (l : List ℕ) (x : ℕ), x ∈ wordsToBytes l → x < 256 := by
  intro l
  induction l with
  | nil => intro x hx; simp [wordsToBytes] at hx
  | cons w rest ih =>
    intro x hx
    simp only [wordsToBytes, List.mem_append] at hx
    rcases hx with hx | hx
    · simp [wordBytes] at hx
      rcases hx with h | h | h | h <;> rw [h] <;>
        exact Nat.mod_lt _ (by norm_num)
    · exact ih x hx

lemma length_randStep (st : RNGState) : (randStep st).1.length = 16 := by
  have h16 : (chachaCore (ctrWords st.counter ++ poolNorm st.pool)).length = 16 := by
    rw [length_chachaCore, length_stretch_input]
  simp [randStep, stretch, length_wordsToBytes, h16]

lemma length_randBlocks : ∀ (n : ℕ) (st : RNGState),
    (randBlocks st n).1.length = 16 * n := by
  intro n
  induction n with
  | zero => intro st; rfl
  | succ n ih =>
    intro st
    simp [randBlocks, length_randStep, ih]
    omega

/-- Claim C3: for every pool state and every requested length `len`
(including `len` greater than the pool capacity and including a state
with zero entropy credit), `rand` produces exactly `len` bytes; it is a
total function signalling no error and never blocking on entropy
availability. -/
theorem rand_always_fills (st : RNGState) (len : ℕ) :
    (rand st len).1.length = len := by
  simp [rand, length_randBlocks]
  omega

lemma vonNeumann_two_mul : ∀ l : List Bool, 2 * (vonNeumann l).length ≤ l.length := by
  have key : ∀ (n : ℕ) (l : List Bool), l.length ≤ n →
      2 * (vonNeumann l).length ≤ l.length := by
    intro n
    induction n with
    | zero =>
      intro l hl
      match l with
      | [] => simp [vonNeumann]
      | a :: t => simp at hl
    | succ n ih =>
      intro l hl
      match l with
      | [] => simp [vonNeumann]
      | [a] => simp [vonNeumann]
      | a :: b :: rest =>
        have hr : rest.length ≤ n := by simp at hl; omega
        have := ih rest hr
        simp only [vonNeumann]
        split
        · simp only [List.length_cons]
          omega
        · simp only [List.length_cons]
          omega
  intro l
  exact key l.length l (le_refl _)

/-- Claim C5: the Von Neumann debiasing extractor is a pure function on
bitstreams, consuming bits pairwise, discarding equal pairs and
emitting one bit of an unequal pair (this is the defining recursion of
`vonNeumann`); consequently its output length is at most half its input
length. -/
theorem vonNeumann_output_at_most_half (l : List Bool) :
    (vonNeumann l).length ≤ l.length / 2 := by
  have h := vonNeumann_two_mul l
  omega

lemma runStir_credit : ∀ (calls : List (List ℕ × ℕ)) (st : RNGState),
    st.credit ≤ 384 →
    st.credit ≤ (runStir st calls).credit ∧ (runStir st calls).credit ≤ 384 := by
  intro calls
  induction calls with
  | nil => intro st h; exact ⟨le_refl _, h⟩
  | cons p rest ih =>
    intro st h
    obtain ⟨d, c⟩ := p
    have h1 : (stirFn st d c).credit = st.credit + min c (384 - st.credit) := rfl
    have hs : (stirFn st d c).credit ≤ 384 := by rw [h1]; omega
    refine ⟨le_trans ?_ (ih (stirFn st d c) hs).1, (ih (stirFn st d c) hs).2⟩
    rw [h1]
    omega

/-- Claim C1: starting from any state within the 384-bit pool capacity,
each `stir(data, credit_bits)` increases the credit counter by exactly
`min credit_bits (384 - credit)`, and over every sequence of `stir`
calls the credit counter never decreases and never exceeds the 384-bit
capacity of the 48-byte pool. -/
theorem stir_credit_accounting (st : RNGState) (d : List ℕ) (c : ℕ)
    (calls : List (List ℕ × ℕ)) (h : st.credit ≤ 384) :
    (stirFn st d c).credit = st.credit + min c (384 - st.credit) ∧
    st.credit ≤ (runStir st calls).credit ∧
    (runStir st calls).credit ≤ 384 :=
  ⟨rfl, (runStir_credit calls st h).1, (runStir_credit calls st h).2⟩

/-- Witness for `stir_credit_accounting` at a concrete freshly begun
state and a concrete call sequence whose claims overflow the capacity. -/
theorem stir_credit_accounting_witness :
    (⟨List.replicate 12 0, 0, 0⟩ : RNGState).credit ≤ 384 ∧
    ((stirFn (⟨List.replicate 12 0, 0, 0⟩ : RNGState) [1, 2] 100).credit =
        (⟨List.replicate 12 0, 0, 0⟩ : RNGState).credit +
          min 100 (384 - (⟨List.replicate 12 0, 0, 0⟩ : RNGState).credit) ∧
      (⟨List.replicate 12 0, 0, 0⟩ : RNGState).credit ≤
        (runStir (⟨List.replicate 12 0, 0, 0⟩ : RNGState)
          [([3], 200), ([4], 500)]).credit ∧
      (runStir (⟨List.replicate 12 0, 0, 0⟩ : RNGState)
          [([3], 200), ([4], 500)]).credit ≤ 384) :=
  ⟨by decide, stir_credit_accounting _ [1, 2] 100 _ (by decide)⟩

/-- Claim C2: for every pool state within capacity and every request of
`n` bytes, `available(n)` returns true iff the credit counter holds at
least `n * 8` bits or equals the 384-bit capacity (the saturation
escape valve), and false otherwise; in particular a request larger than
the 48-byte ceiling is admitted exactly when the pool is saturated. -/
theorem available_spec (st : RNGState) (n : ℕ) (h : st.credit ≤ 384) :
    (available st n = true ↔ (n * 8 ≤ st.credit ∨ st.credit = 384)) ∧
    (48 < n → (available st n = true ↔ st.credit = 384)) := by
  constructor
  · simp [available]
  · intro hn
    simp only [available, Bool.or_eq_true, decide_eq_true_eq]
    omega

/-- Witness for `available_spec`: a saturated pool admits a 64-byte
request even though 512 bits exceed the 384-bit ceiling. -/
theorem available_spec_witness :
    (⟨List.replicate 12 0, 0, 384⟩ : RNGState).credit ≤ 384 ∧
    ((available (⟨List.replicate 12 0, 0, 384⟩ : RNGState) 64 = true ↔
        (64 * 8 ≤ (⟨List.replicate 12 0, 0, 384⟩ : RNGState).credit ∨
          (⟨List.replicate 12 0, 0, 384⟩ : RNGState).credit = 384)) ∧
      (48 < 64 → (available (⟨List.replicate 12 0, 0, 384⟩ : RNGState) 64 = true ↔
        (⟨List.replicate 12 0, 0, 384⟩ : RNGState).credit = 384))) :=
  ⟨by decide, available_spec _ 64 (by decide)⟩

/-- Claim C10: every call to `ESPNoiseSource::stir()` either returns
immediately with no samples delivered and no credit claimed (neither
radio nor digital ADC enabled), or delivers exactly the 32 raw hardware
bytes to `output()` with a credit claim of exactly 64 bits, one quarter
of the 256 delivered bits. -/
theorem esp_stir_dichotomy (radioEnabled adcEnabled : Bool) (raw : List ℕ)
    (hw : raw.length = 32) :
    (radioEnabled = false ∧ adcEnabled = false →
      espStir radioEnabled adcEnabled raw = none) ∧
    ((radioEnabled = true ∨ adcEnabled = true) →
      espStir radioEnabled adcEnabled raw = some (raw, 64) ∧
        raw.length * 8 = 4 * 64) := by
  cases radioEnabled <;> cases adcEnabled <;> simp [espStir] <;> omega

/-- Witness for `esp_stir_dichotomy` at a concrete 32-byte hardware
sample with only the digital ADC enabled. -/
theorem esp_stir_dichotomy_witness :
    (List.replicate 32 7).length = 32 ∧
    ((false = false ∧ true = false → espStir false true (List.replicate 32 7) = none) ∧
      ((false = true ∨ true = true) →
        espStir false true (List.replicate 32 7) = some (List.replicate 32 7, 64) ∧
          (List.replicate 32 7).length * 8 = 4 * 64)) :=
  ⟨by decide, esp_stir_dichotomy false true _ (by decide)⟩

/-- Counterexample to claim C6: `ESPNoiseSource::stir()` (the enabled
branch) delivers the raw 32 hardware bytes directly to `output()`.  At
the concrete all-zero raw sample the Von Neumann extraction of the raw
bitstream is empty, while the delivered bitstream is the raw 256-bit
stream itself, so the delivered bits are not the Von Neumann extraction
of the raw bits: the extractor is not applied in this noise source. -/
theorem esp_stir_skips_debias :
    espStir true true (List.replicate 32 0) = some (List.replicate 32 0, 64) ∧
    vonNeumann (bytesToBits (List.replicate 32 0)) = [] ∧
    bytesToBits (List.replicate 32 0) ≠ [] := by
  refine ⟨by decide, by decide, by decide⟩

/-- Claim C6 as amended: whenever `ESPNoiseSource::stir()` delivers
samples it passes the raw hardware bytes through unchanged (no Von
Neumann extraction), but its credit claim is sized at one quarter of
the delivered bits — 64 credit bits for 256 delivered bits — and never
a 1:1 bits-to-credit claim. -/
theorem esp_credit_deflation (radioEnabled adcEnabled : Bool)
    (raw out : List ℕ) (cr : ℕ) (hw : raw.length = 32)
    (h : espStir radioEnabled adcEnabled raw = some (out, cr)) :
    out = raw ∧ cr = 64 ∧ cr * 4 = raw.length * 8 ∧ cr < raw.length * 8 := by
  unfold espStir at h
  split at h
  · exact absurd h (by simp)
  · simp only [Option.some.injEq, Prod.mk.injEq] at h
    obtain ⟨ho, hc⟩ := h
    refine ⟨ho.symm, hc.symm, ?_, ?_⟩ <;> omega

/-- Witness for `esp_credit_deflation` at a concrete enabled call. -/
theorem esp_credit_deflation_witness :
    (List.replicate 32 1).length = 32 ∧
    espStir true false (List.replicate 32 1) = some (List.replicate 32 1, 64) ∧
    (List.replicate 32 1 = List.replicate 32 1 ∧ (64 : ℕ) = 64 ∧
      64 * 4 = (List.replicate 32 1).length * 8 ∧
      64 < (List.replicate 32 1).length * 8) :=
  ⟨by decide, by decide,
    esp_credit_deflation true false _ _ 64 (by decide) (by decide)⟩
/-- Concrete evaluation of the embedded generator: the first 16
disclosed bytes after `begin` with the single-byte tag 65. -/
lemma firstOutput_tag65 : firstOutput [65] = [171, 141, 7, 190, 66, 193, 149, 107, 68, 98, 190, 244, 61, 122, 191, 125] := by
  have hc1 : chachaCore [1634760805, 857760878, 2036477234, 1797285236, 65, 0, 0, 0, 0, 0, 0, 0, 0, 0, 0, 0] = [961449955, 696215762, 3246022264, 125515166, 94831210, 112155295, 2399371744, 3589568263, 1113440336, 3438038886, 482534115, 3348326311, 438447995, 4018757546, 2961449772, 1668361167] := by decide
  have hc2 : chachaCore [1634760805, 857760878, 2036477234, 1797285236, 94831210, 112155295, 2399371744, 3589568263, 1113440336, 3438038886, 482534115, 3348326311, 438447995, 4018757546, 2961449772, 1668361167] = [3445332161, 2205536570, 2062158029, 3567533597, 2877987062, 749689127, 3152461966, 4144551906, 3619108234, 2115543665, 1861760862, 1665133798, 3032219946, 1194186236, 441331758, 3069935091] := by decide
  have hc3 : chachaCore [1634760805, 857760878, 2036477234, 1797285237, 2877987062, 749689127, 3152461966, 4144551906, 3619108234, 2115543665, 1861760862, 1665133798, 3032219946, 1194186236, 441331758, 3069935091] = [3188166059, 1804976450, 4106117700, 2109700669, 49720535, 1146457907, 1813103488, 906570029, 1987329913, 1273205605, 1691056705, 3254694845, 794052460, 2803753533, 360671025, 3001318338] := by decide
  have h1 : stirPool (List.replicate 12 0) [65] = (chachaCore [1634760805, 857760878, 2036477234, 1797285236, 65, 0, 0, 0, 0, 0, 0, 0, 0, 0, 0, 0]).drop 4 := rfl
  have h1b : stirPool (List.replicate 12 0) [65] = [94831210, 112155295, 2399371744, 3589568263, 1113440336, 3438038886, 482534115, 3348326311, 438447995, 4018757546, 2961449772, 1668361167] := by rw [h1, hc1]; decide
  have h2 : (beginTag [65]).2 = (⟨(chachaCore (ctrWords 0 ++ poolNorm (stirPool (List.replicate 12 0) [65]))).drop 4, 1, 0⟩ : RNGState) := rfl
  rw [h1b] at h2
  have e2 : ctrWords 0 ++ poolNorm [94831210, 112155295, 2399371744, 3589568263, 1113440336, 3438038886, 482534115, 3348326311, 438447995, 4018757546, 2961449772, 1668361167] = [1634760805, 857760878, 2036477234, 1797285236, 94831210, 112155295, 2399371744, 3589568263, 1113440336, 3438038886, 482534115, 3348326311, 438447995, 4018757546, 2961449772, 1668361167] := by decide
  rw [e2, hc2] at h2
  have hdrop2 : List.drop 4 [3445332161, 2205536570, 2062158029, 3567533597, 2877987062, 749689127, 3152461966, 4144551906, 3619108234, 2115543665, 1861760862, 1665133798, 3032219946, 1194186236, 441331758, 3069935091] = [2877987062, 749689127, 3152461966, 4144551906, 3619108234, 2115543665, 1861760862, 1665133798, 3032219946, 1194186236, 441331758, 3069935091] := by decide
  rw [hdrop2] at h2
  have h3 : firstOutput [65] = (randStep (⟨[2877987062, 749689127, 3152461966, 4144551906, 3619108234, 2115543665, 1861760862, 1665133798, 3032219946, 1194186236, 441331758, 3069935091], 1, 0⟩ : RNGState)).1 := by
    show (randStep (beginTag [65]).2).1 = _
    rw [h2]
  have h4 : (randStep (⟨[2877987062, 749689127, 3152461966, 4144551906, 3619108234, 2115543665, 1861760862, 1665133798, 3032219946, 1194186236, 441331758, 3069935091], 1, 0⟩ : RNGState)).1 = wordsToBytes ((chachaCore (ctrWords 1 ++ poolNorm [2877987062, 749689127, 3152461966, 4144551906, 3619108234, 2115543665, 1861760862, 1665133798, 3032219946, 1194186236, 441331758, 3069935091])).take 4) := rfl
  have e3 : ctrWords 1 ++ poolNorm [2877987062, 749689127, 3152461966, 4144551906, 3619108234, 2115543665, 1861760862, 1665133798, 3032219946, 1194186236, 441331758, 3069935091] = [1634760805, 857760878, 2036477234, 1797285237, 2877987062, 749689127, 3152461966, 4144551906, 3619108234, 2115543665, 1861760862, 1665133798, 3032219946, 1194186236, 441331758, 3069935091] := by decide
  rw [h3, h4, e3, hc3]
  decide

/-- Concrete evaluation of the embedded generator: the first 16
disclosed bytes after `begin` with the single-byte tag 66. -/
lemma firstOutput_tag66 : firstOutput [66] = [111, 113, 106, 203, 148, 184, 60, 68, 247, 100, 91, 66, 147, 248, 96, 194] := by
  have hc1 : chachaCore [1634760805, 857760878, 2036477234, 1797285236, 66, 0, 0, 0, 0, 0, 0, 0, 0, 0, 0, 0] = [4196382978, 259921872, 280159507, 2604145569, 2560864945, 323047915, 658613186, 741689589, 155781989, 2695307083, 2034238296, 1342844942, 1998713004, 3401518450, 3804464689, 856233403] := by decide
  have hc2 : chachaCore [1634760805, 857760878, 2036477234, 1797285236, 2560864945, 323047915, 658613186, 741689589, 155781989, 2695307083, 2034238296, 1342844942, 1998713004, 3401518450, 3804464689, 856233403] = [557087046, 2301074376, 1558687516, 2124820837, 353119273, 2462343569, 4163921956, 1737619326, 1024818867, 1332195989, 244856210, 893789357, 769734642, 3690242530, 3771881077, 106091286] := by decide
  have hc3 : chachaCore [1634760805, 857760878, 2036477234, 1797285237, 353119273, 2462343569, 4163921956, 1737619326, 1024818867, 1332195989, 244856210, 893789357, 769734642, 3690242530, 3771881077, 106091286] = [3412750703, 1144830100, 1113285879, 3261134995, 2009867052, 2928287900, 348219808, 2141830200, 3008998533, 2864141648, 2225208341, 1793110672, 3559920296, 1654156677, 2389772831, 3358574571] := by decide
  have h1 : stirPool (List.replicate 12 0) [66] = (chachaCore [1634760805, 857760878, 2036477234, 1797285236, 66, 0, 0, 0, 0, 0, 0, 0, 0, 0, 0, 0]).drop 4 := rfl
  have h1b : stirPool (List.replicate 12 0) [66] = [2560864945, 323047915, 658613186, 741689589, 155781989, 2695307083, 2034238296, 1342844942, 1998713004, 3401518450, 3804464689, 856233403] := by rw [h1, hc1]; decide
  have h2 : (beginTag [66]).2 = (⟨(chachaCore (ctrWords 0 ++ poolNorm (stirPool (List.replicate 12 0) [66]))).drop 4, 1, 0⟩ : RNGState) := rfl
  rw [h1b] at h2
  have e2 : ctrWords 0 ++ poolNorm [2560864945, 323047915, 658613186, 741689589, 155781989, 2695307083, 2034238296, 1342844942, 1998713004, 3401518450, 3804464689, 856233403] = [1634760805, 857760878, 2036477234, 1797285236, 2560864945, 323047915, 658613186, 741689589, 155781989, 2695307083, 2034238296, 1342844942, 1998713004, 3401518450, 3804464689, 856233403] := by decide
  rw [e2, hc2] at h2
  have hdrop2 : List.drop 4 [557087046, 2301074376, 1558687516, 2124820837, 353119273, 2462343569, 4163921956, 1737619326, 1024818867, 1332195989, 244856210, 893789357, 769734642, 3690242530, 3771881077, 106091286] = [353119273, 2462343569, 4163921956, 1737619326, 1024818867, 1332195989, 244856210, 893789357, 769734642, 3690242530, 3771881077, 106091286] := by decide
  rw [hdrop2] at h2
  have h3 : firstOutput [66] = (randStep (⟨[353119273, 2462343569, 4163921956, 1737619326, 1024818867, 1332195989, 244856210, 893789357, 769734642, 3690242530, 3771881077, 106091286], 1, 0⟩ : RNGState)).1 := by
    show (randStep (beginTag [66]).2).1 = _
    rw [h2]
  have h4 : (randStep (⟨[353119273, 2462343569, 4163921956, 1737619326, 1024818867, 1332195989, 244856210, 893789357, 769734642, 3690242530, 3771881077, 106091286], 1, 0⟩ : RNGState)).1 = wordsToBytes ((chachaCore (ctrWords 1 ++ poolNorm [353119273, 2462343569, 4163921956, 1737619326, 1024818867, 1332195989, 244856210, 893789357, 769734642, 3690242530, 3771881077, 106091286])).take 4) := rfl
  have e3 : ctrWords 1 ++ poolNorm [353119273, 2462343569, 4163921956, 1737619326, 1024818867, 1332195989, 244856210, 893789357, 769734642, 3690242530, 3771881077, 106091286] = [1634760805, 857760878, 2036477234, 1797285237, 353119273, 2462343569, 4163921956, 1737619326, 1024818867, 1332195989, 244856210, 893789357, 769734642, 3690242530, 3771881077, 106091286] := by decide
  rw [h3, h4, e3, hc3]
  decide

lemma firstOutput_length (tag : List ℕ) : (firstOutput tag).length = 16 :=
  length_randStep _

lemma randStep_fst (st : RNGState) : (randStep st).1 =
    wordsToBytes ((chachaCore (ctrWords st.counter ++ poolNorm st.pool)).take 4) := by
  simp only [randStep, stretch]

lemma firstOutput_lt (tag : List ℕ) :
    ∀ x ∈ firstOutput tag, x < 256 := by
  intro x hx
  rw [show firstOutput tag = (randStep (beginTag tag).2).1 from rfl, randStep_fst] at hx
  exact mem_wordsToBytes_lt _ x hx

/-- Finite fingerprint of a 16-byte output block, used to compare
outputs inside a finite codomain. -/
def encodeBytes (l : List ℕ) : Fin 16 → Fin 256 :=
  fun i => ⟨l.getD i.val 0 % 256, Nat.mod_lt _ (by norm_num)⟩

lemma eq_of_encodeBytes {l1 l2 : List ℕ} (h1 : l1.length = 16)
    (h2 : l2.length = 16) (b1 : ∀ x ∈ l1, x < 256) (b2 : ∀ x ∈ l2, x < 256)
    (he : encodeBytes l1 = encodeBytes l2) : l1 = l2 := by
  apply List.ext_getElem (h1.trans h2.symm)
  intro i hi1 hi2
  have hfin : i < 16 := h1 ▸ hi1
  have hcomp := congrFun he ⟨i, hfin⟩
  simp only [encodeBytes, Fin.mk.injEq] at hcomp
  have g1 : l1.getD i 0 = l1[i] := List.getD_eq_getElem l1 0 hi1
  have g2 : l2.getD i 0 = l2[i] := List.getD_eq_getElem l2 0 hi2
  have m1 : l1[i] < 256 := b1 _ (List.getElem_mem hi1)
  have m2 : l2[i] < 256 := b2 _ (List.getElem_mem hi2)
  rw [g1, g2, Nat.mod_eq_of_lt m1, Nat.mod_eq_of_lt m2] at hcomp
  exact hcomp

/-- Counterexample to claim C7 as universally stated: some pair of
distinct tag strings yields identical first outputs.  Arbitrarily long
tags are compressed into the fixed 48-byte pool state, and the 16-byte
first output block lives in a finite codomain, so by the pigeonhole
principle the map from tags to first outputs cannot be injective. -/
theorem tag_collision_exists :
    ∃ t1 t2 : List ℕ, t1 ≠ t2 ∧ firstOutput t1 = firstOutput t2 := by
  obtain ⟨m, n, hmn, he⟩ := Finite.exists_ne_map_eq_of_infinite
    (fun k : ℕ => encodeBytes (firstOutput (List.replicate (k + 1) 65)))
  refine ⟨List.replicate (m + 1) 65, List.replicate (n + 1) 65, ?_, ?_⟩
  · intro hcon
    apply hmn
    have hlen := congrArg List.length hcon
    simp only [List.length_replicate] at hlen
    omega
  · exact eq_of_encodeBytes (firstOutput_length _) (firstOutput_length _)
      (firstOutput_lt _) (firstOutput_lt _) he

/-- Claim C7 as amended: for the concrete distinct tags "A" (byte 65)
and "B" (byte 66), two pools run identically except for the tag —
`begin` with no loaded seed and no `stir` calls — produce different
first `rand` outputs.  (The universal form over all pairs of distinct
tags is refuted by the pigeonhole collision of `tag_collision_exists`;
for generic short tags such as these the outputs differ.) -/
theorem tag_divergence_concrete : firstOutput [65] ≠ firstOutput [66] := by
  rw [firstOutput_tag65, firstOutput_tag66]
  decide

lemma ticks_split (m n : ℕ) : ∀ s, ticks s (m + n) = ticks s m ++ ticks (s + m) n := by
  induction m with
  | zero => intro s; simp [ticks]
  | succ m ih =>
    intro s
    have h1 : m + 1 + n = (m + n) + 1 := by omega
    rw [h1]
    simp only [ticks]
    rw [ih (s + 1)]
    have h2 : s + 1 + m = s + (m + 1) := by omega
    rw [h2]
    simp

lemma ticks_shift_count (T k : ℕ) : ∀ n s,
    (ticks (s + k * T) n).countP (fun u => u % T == 0) =
    (ticks s n).countP (fun u => u % T == 0) := by
  intro n
  induction n with
  | zero => intro s; rfl
  | succ n ih =>
    intro s
    simp only [ticks, List.countP_cons]
    have h1 : (s + k * T) % T = s % T := Nat.add_mul_mod_self_right s k T
    have h2 : s + k * T + 1 = (s + 1) + k * T := by omega
    rw [h1, h2, ih (s + 1)]

lemma window_no_mul (T : ℕ) : ∀ m s, 0 < s → s + m ≤ T →
    (ticks s m).countP (fun u => u % T == 0) = 0 := by
  intro m
  induction m with
  | zero => intro s h1 h2; rfl
  | succ m ih =>
    intro s h1 h2
    simp only [ticks, List.countP_cons]
    have hs : s % T = s := Nat.mod_eq_of_lt (by omega)
    have hb : (s % T == 0) = false := by
      simp only [hs, beq_eq_false_iff_ne, ne_eq]
      omega
    rw [hb, ih (s + 1) (by omega) (by omega)]
    simp

lemma window_first (T : ℕ) (hT : 0 < T) :
    (ticks 1 T).countP (fun u => u % T == 0) = 1 := by
  obtain ⟨m, rfl⟩ : ∃ m, T = m + 1 := ⟨T - 1, by omega⟩
  rw [ticks_split m 1 1, List.countP_append,
      window_no_mul (m + 1) m 1 (by omega) (by omega)]
  simp only [ticks, List.countP_cons, List.countP_nil]
  have h1 : (1 : ℕ) + m = m + 1 := by omega
  rw [h1, Nat.mod_self]
  simp

lemma sched_ticks_count3 (T : ℕ) (hT : 0 < T) :
    (ticks 1 (3 * T)).countP (fun u => u % T == 0) = 3 := by
  have h3 : 3 * T = T + (T + T) := by omega
  rw [h3, ticks_split T (T + T) 1, List.countP_append,
      ticks_split T T (1 + T), List.countP_append]
  have w1 := window_first T hT
  have w2 : (ticks (1 + T) T).countP (fun u => u % T == 0) = 1 := by
    have e : 1 + T = 1 + 1 * T := by omega
    rw [e, ticks_shift_count T 1 T 1, window_first T hT]
  have w3 : (ticks (1 + T + T) T).countP (fun u => u % T == 0) = 1 := by
    have e : 1 + T + T = 1 + 2 * T := by omega
    rw [e, ticks_shift_count T 2 T 1, window_first T hT]
  rw [w1, w2, w3]

lemma schedGo_sched_count (T : ℕ) (cred : ℕ → ℕ) :
    ∀ n t (fd : Bool),
      (schedGo T cred t n fd).countP (fun e => e.sched) =
      (ticks t n).countP (fun u => u % T == 0) := by
  intro n
  induction n with
  | zero => intro t fd; rfl
  | succ n ih =>
    intro t fd
    simp only [schedGo, ticks]
    cases hsch : (t % T == 0) <;> cases hsat : ((cred t == 384) && !fd) <;>
      simp [List.countP_cons, ih, hsch, hsat]

lemma schedGo_no_forced_when_done (T : ℕ) (cred : ℕ → ℕ) :
    ∀ n t, ∀ e ∈ schedGo T cred t n true, e.forcedSave = false := by
  intro n
  induction n with
  | zero => intro t e he; simp [schedGo] at he
  | succ n ih =>
    intro t e he
    simp only [schedGo, Bool.not_true, Bool.and_false, Bool.or_false,
      Bool.false_and, Bool.true_or] at he
    by_cases hsch : (t % T == 0) = true
    · simp only [hsch, if_true] at he
      rcases List.mem_cons.mp he with h | h
      · rw [h]
      · exact ih (t + 1) e h
    · simp only [hsch, if_false] at he
      exact ih (t + 1) e he

lemma schedGo_forced_zero (T : ℕ) (cred : ℕ → ℕ) (n t : ℕ) :
    (schedGo T cred t n true).countP (fun e => e.forcedSave) = 0 := by
  rw [List.countP_eq_zero]
  intro e he
  simp [schedGo_no_forced_when_done T cred n t e he]

lemma schedGo_forced_le_one (T : ℕ) (cred : ℕ → ℕ) :
    ∀ n t (fd : Bool),
      (schedGo T cred t n fd).countP (fun e => e.forcedSave) ≤ 1 := by
  intro n
  induction n with
  | zero => intro t fd; simp [schedGo]
  | succ n ih =>
    intro t fd
    cases fd
    · simp only [schedGo, Bool.not_false, Bool.and_true, Bool.or_false]
      cases hsat : (cred t == 384)
      · cases hsch : (t % T == 0) <;>
          simp [List.countP_cons, hsch, hsat, ih (t + 1) false]
      · cases hsch : (t % T == 0) <;>
          simp [List.countP_cons, hsch, hsat, schedGo_forced_zero]
    · rw [schedGo_forced_zero]
      omega

lemma schedGo_forced_first (T : ℕ) (cred : ℕ → ℕ) :
    ∀ n t (fd : Bool), ∀ e ∈ schedGo T cred t n fd, e.forcedSave = true →
      cred e.tick = 384 ∧ ∀ s, t ≤ s → s < e.tick → cred s ≠ 384 := by
  intro n
  induction n with
  | zero => intro t fd e he; simp [schedGo] at he
  | succ n ih =>
    intro t fd e he hf
    cases fd
    · simp only [schedGo, Bool.not_false, Bool.and_true, Bool.or_false] at he
      cases hsat : (cred t == 384)
      · have hne : cred t ≠ 384 := by simpa using hsat
        rw [hsat] at he
        simp only [Bool.or_false, Bool.false_and] at he
        have hrest : e ∈ schedGo T cred (t + 1) n false := by
          by_cases hsch : (t % T == 0) = true
          · simp only [hsch, if_true] at he
            rcases List.mem_cons.mp he with h | h
            · rw [h] at hf
              simp at hf
            · exact h
          · simp only [hsch, if_false] at he
            exact he
        obtain ⟨h1, h2⟩ := ih (t + 1) false e hrest hf
        refine ⟨h1, fun s hs1 hs2 => ?_⟩
        rcases Nat.eq_or_lt_of_le hs1 with h | h
        · rw [← h]; exact hne
        · exact h2 s h hs2
      · rw [hsat] at he
        simp only [Bool.or_true, Bool.true_and] at he
        rw [if_pos trivial] at he
        rcases List.mem_cons.mp he with h | h
        · rw [h]
          refine ⟨by simpa using hsat, fun s hs1 hs2 => ?_⟩
          simp only at hs2
          omega
        · have hnof := schedGo_no_forced_when_done T cred n (t + 1) e (by simpa using h)
          rw [hf] at hnof
          simp at hnof
    · have hnof := schedGo_no_forced_when_done T cred (n + 1) t e he
      rw [hf] at hnof
      simp at hnof

lemma schedGo_forced_one (T : ℕ) (cred : ℕ → ℕ) :
    ∀ n t tstar, t ≤ tstar → tstar < t + n → cred tstar = 384 →
      (∀ s, t ≤ s → s < tstar → cred s ≠ 384) → tstar % T ≠ 0 →
      (schedGo T cred t n false).countP (fun e => e.forcedSave) = 1 := by
  intro n
  induction n with
  | zero =>
    intro t tstar h1 h2 h3 h4 h5
    omega
  | succ n ih =>
    intro t tstar hle hlt hsat hhist hmod
    by_cases heq : t = tstar
    · subst heq
      have hb : (cred t == 384) = true := by simp [hsat]
      have hsch : (t % T == 0) = false := by
        simp only [beq_eq_false_iff_ne, ne_eq]
        exact hmod
      simp only [schedGo, hb, hsch, Bool.not_false, Bool.and_true,
        Bool.false_or, if_true, Bool.or_true]
      rw [List.countP_cons, schedGo_forced_zero]
      simp
    · have htlt : t < tstar := by omega
      have hnt : cred t ≠ 384 := hhist t (le_refl _) htlt
      have hb : (cred t == 384) = false := by simp [hnt]
      simp only [schedGo, hb, Bool.false_and, Bool.or_false, Bool.and_true,
        Bool.not_false]
      have hrec := ih (t + 1) tstar (by omega) (by omega) hsat
        (fun s hs1 hs2 => hhist s (by omega) hs2) hmod
      by_cases hsch : (t % T == 0) = true
      · simp only [hsch, if_true, List.countP_cons]
        rw [hrec]
        simp
      · simp only [hsch, if_false]
        exact hrec

/-- Claim C9: over simulated elapsed time `3 * T` with autosave
interval `T`, the housekeeping scheduler performs exactly 3 scheduled
saves; at most one forced save ever occurs, a forced save occurs only
at the first moment the credit counter reaches the 384-bit capacity,
it occurs exactly once whenever that first saturation moment falls in
the window at a non-scheduled tick, and a saturation moment coinciding
with a scheduled save is absorbed into that single save rather than
counted twice. -/
theorem autosave_save_counts (T : ℕ) (cred : ℕ → ℕ) (hT : 0 < T)
    (hcap : ∀ t, cred t ≤ 384) :
    (runScheduler T cred (3 * T)).countP (fun e => e.sched) = 3 ∧
    (runScheduler T cred (3 * T)).countP (fun e => e.forcedSave) ≤ 1 ∧
    (∀ e ∈ runScheduler T cred (3 * T), e.forcedSave = true →
      cred e.tick = 384 ∧ ∀ s, 0 < s → s < e.tick → cred s < 384) ∧
    (∀ tstar, 0 < tstar → tstar < 1 + 3 * T → cred tstar = 384 →
      (∀ s, 0 < s → s < tstar → cred s < 384) → tstar % T ≠ 0 →
      (runScheduler T cred (3 * T)).countP (fun e => e.forcedSave) = 1) := by
  refine ⟨?_, ?_, ?_, ?_⟩
  · rw [runScheduler, schedGo_sched_count, sched_ticks_count3 T hT]
  · exact schedGo_forced_le_one T cred (3 * T) 1 false
  · intro e he hf
    obtain ⟨h1, h2⟩ := schedGo_forced_first T cred (3 * T) 1 false e he hf
    exact ⟨h1, fun s hs0 hst => lt_of_le_of_ne (hcap s) (h2 s hs0 hst)⟩
  · intro tstar h0 hlt hsat hhist hmod
    exact schedGo_forced_one T cred (3 * T) 1 tstar h0 (by omega) hsat
      (fun s hs1 hs2 => Nat.ne_of_lt (hhist s hs1 hs2)) hmod

/-- Witness for `autosave_save_counts`: interval 2 over 6 ticks with an
immediately saturated credit trajectory; saturation at tick 1 is not a
scheduled moment, so exactly one forced save occurs besides the 3
scheduled saves. -/
theorem autosave_save_counts_witness :
    0 < 2 ∧ (∀ t, (fun _ : ℕ => 384) t ≤ 384) ∧
    ((runScheduler 2 (fun _ => 384) (3 * 2)).countP (fun e => e.sched) = 3 ∧
      (runScheduler 2 (fun _ => 384) (3 * 2)).countP (fun e => e.forcedSave) ≤ 1 ∧
      (∀ e ∈ runScheduler 2 (fun _ => 384) (3 * 2), e.forcedSave = true →
        (fun _ : ℕ => 384) e.tick = 384 ∧
          ∀ s, 0 < s → s < e.tick → (fun _ : ℕ => 384) s < 384) ∧
      (∀ tstar, 0 < tstar → tstar < 1 + 3 * 2 → (fun _ : ℕ => 384) tstar = 384 →
        (∀ s, 0 < s → s < tstar → (fun _ : ℕ => 384) s < 384) → tstar % 2 ≠ 0 →
        (runScheduler 2 (fun _ => 384) (3 * 2)).countP (fun e => e.forcedSave) = 1)) :=
  ⟨by decide, fun t => Nat.le_refl 384,
    autosave_save_counts 2 (fun _ => 384) (by decide) (fun t => Nat.le_refl 384)⟩
